import Mathlib

/-!
Shallow embedding of `src/top100.py` (Streamlit dashboard "Analysis of the
Largest Companies by Revenue").

The verifiable core of the program is:
* `load_data` (src lines 48-53): read the CSV, strip `','` from the
  `Revenue (USD millions)` column and cast to `int`, strip `'%'` from the
  `Revenue growth` column and cast to `float`;
* the company-name column auto-detection loop (src lines 68-75);
* the derived views: `data.head(10)` (line 89), the industry filter
  `data[data["Industry"].isin(industries)]` (line 96), and
  `data['Headquarters'].value_counts().head(5)` (line 179).

Strings stay strings; Python `int` is `Int`; Python `float` is modelled by
`ℚ` (the growth texts are plain decimal literals, parsed exactly).
-/

deriving instance DecidableEq for Except

namespace Top100

/-- One raw CSV row, after `pd.read_csv`, with the text of the five columns
the program uses: the name/company column, `Revenue (USD millions)`,
`Revenue growth`, `Industry`, `Headquarters`. -/
structure RawRow where
  name : String
  revenueText : String
  growthText : String
  industry : String
  headquarters : String
  deriving Repr, DecidableEq

/-- One normalized row of the loaded DataFrame. -/
structure CompanyRecord where
  name : String
  revenue : Int
  growth : ℚ
  industry : String
  headquarters : String
  deriving Repr, DecidableEq

/-- A Dataset is the ordered list of normalized rows. -/
def Dataset := List CompanyRecord

/-- The error raised when a numeric column fails normalization
(`.astype(int)` / `.astype(float)` raising `ValueError`). -/
inductive FormatError where
  | formatError : FormatError
  deriving Repr, DecidableEq

/-- The error surfaced when no name/company column exists
(src lines 73-75: `st.error` followed by `st.stop`). -/
inductive SchemaError where
  | schemaError : SchemaError
  deriving Repr, DecidableEq

/-- `s.str.replace(c, '', regex=True)` applied elementwise: delete every
occurrence of the character `c`, wherever it appears. -/
def stripChar (c : Char) (s : String) : String :=
  ⟨s.data.filter (fun d => d ≠ c)⟩

/-- Digit value of a character. -/
def digitVal (c : Char) : Nat := c.toNat - '0'.toNat

/-- Value of a digit string, most significant digit first. -/
def digitsVal (cs : List Char) : Nat :=
  cs.foldl (fun a c => 10 * a + digitVal c) 0

/-- Parse a nonempty all-digit character list as a natural number. -/
def parseNatDigits (cs : List Char) : Option Nat :=
  if cs ≠ [] ∧ cs.all (fun c => c.isDigit) then
    some (digitsVal cs)
  else none

/-- Model of the elementwise conversion done by `.astype(int)` on a string
column, i.e. Python `int(text)`: an optional sign followed by a nonempty
run of digits; anything else raises (returns `none`). -/
def parseInt (s : String) : Option Int :=
  match s.data with
  | '-' :: rest => (parseNatDigits rest).map (fun n => -(Int.ofNat n))
  | '+' :: rest => (parseNatDigits rest).map (fun n => Int.ofNat n)
  | cs => (parseNatDigits cs).map (fun n => Int.ofNat n)

/-- Parse an unsigned decimal literal (`"12"`, `"12.5"`, `"12."`, `".5"`)
into its digits value and its count of fractional digits (so `"12.5"`
gives `(125, 1)`).  Anything else (two dots, stray characters, no digits
at all) fails. -/
def parseDecParts (cs : List Char) : Option (Nat × Nat) :=
  match cs.splitOn '.' with
  | [ip] =>
    if ip ≠ [] ∧ ip.all (fun c => c.isDigit) then
      some (digitsVal ip, 0)
    else none
  | [ip, fp] =>
    if (ip ≠ [] ∨ fp ≠ []) ∧ ip.all (fun c => c.isDigit)
        ∧ fp.all (fun c => c.isDigit) then
      some (digitsVal (ip ++ fp), fp.length)
    else none
  | _ => none

/-- Sign and decimal parts of a float literal: optional sign, then an
unsigned decimal literal. -/
def parseFloatParts (s : String) : Option (Bool × Nat × Nat) :=
  match s.data with
  | '-' :: rest => (parseDecParts rest).map (fun p => (true, p))
  | '+' :: rest => (parseDecParts rest).map (fun p => (false, p))
  | cs => (parseDecParts cs).map (fun p => (false, p))

/-- The rational value denoted by a sign and decimal parts. -/
def decValue (sign : Bool) (n k : Nat) : ℚ :=
  (if sign then -1 else 1) * (n : ℚ) / 10 ^ k

/-- Model of the elementwise conversion done by `.astype(float)` on a string
column, i.e. Python `float(text)` restricted to the decimal literals that
occur in this dataset.  Decimal literals are parsed exactly (every growth
value in the data has few enough digits to be exact in double precision,
so `ℚ` is a faithful model of the values the program computes). -/
def parseFloat (s : String) : Option ℚ :=
  (parseFloatParts s).map (fun t => decValue t.1 t.2.1 t.2.2)

/-- Normalization of one `Revenue (USD millions)` cell (src line 51):
`.str.replace(',', '', regex=True).astype(int)`. -/
def normalizeRevenue (s : String) : Option Int :=
  parseInt (stripChar ',' s)

/-- Normalization of one `Revenue growth` cell (src line 52):
`.str.replace('%', '', regex=True).astype(float)`. -/
def normalizeGrowth (s : String) : Option ℚ :=
  parseFloat (stripChar '%' s)

/-- Columnwise conversion: `.astype` converts the whole column, raising on
the first cell that fails; no partial column is produced. -/
def convertColumn (f : String → Option α) : List String → Except FormatError (List α)
  | [] => Except.ok []
  | s :: rest =>
    match f s with
    | none => Except.error FormatError.formatError
    | some v =>
      match convertColumn f rest with
      | Except.error e => Except.error e
      | Except.ok vs => Except.ok (v :: vs)

/-- Reassemble the DataFrame rows after both column conversions. -/
def buildRecords : List RawRow → List Int → List ℚ → List CompanyRecord
  | r :: rs, v :: vs, g :: gs =>
    { name := r.name, revenue := v, growth := g,
      industry := r.industry, headquarters := r.headquarters }
      :: buildRecords rs vs gs
  | _, _, _ => []

/-- `load_data` (src lines 48-53): convert the revenue column, then the
growth column; a failure in either aborts the whole load with a
`FormatError` and yields no Dataset. -/
def load_data (rows : List RawRow) : Except FormatError (List CompanyRecord) :=
  match convertColumn normalizeRevenue (rows.map (fun r => r.revenueText)) with
  | Except.error e => Except.error e
  | Except.ok revs =>
    match convertColumn normalizeGrowth (rows.map (fun r => r.growthText)) with
    | Except.error e => Except.error e
    | Except.ok gros => Except.ok (buildRecords rows revs gros)

/-- Model of the `@st.cache_data` memoization layer around `load_data`
(src line 48): an input source is a cache key (the upload identity or the
file path) together with its rows. -/
structure Source where
  key : String
  rows : List RawRow
  deriving Repr, DecidableEq

/-- Cache lookup by source key. -/
def cacheLookup (cache : List (String × List CompanyRecord)) (k : String) :
    Option (List CompanyRecord) :=
  match cache.find? (fun e => e.1 = k) with
  | some e => some e.2
  | none => none

/-- `load_data` behind `@st.cache_data`: a hit returns the cached Dataset
unchanged; a miss runs `load_data`, and only a successful result is stored
(an exception propagates and populates nothing). -/
def cached_load (cache : List (String × List CompanyRecord)) (src : Source) :
    Except FormatError (List CompanyRecord) × List (String × List CompanyRecord) :=
  match cacheLookup cache src.key with
  | some ds => (Except.ok ds, cache)
  | none =>
    match load_data src.rows with
    | Except.ok ds => (Except.ok ds, (src.key, ds) :: cache)
    | Except.error e => (Except.error e, cache)

/-- Does `pat` occur at the start of `s`? -/
def startsWithChars : List Char → List Char → Bool
  | _, [] => true
  | [], _ :: _ => false
  | a :: as, b :: bs => a == b && startsWithChars as bs

/-- Does `pat` occur somewhere inside `s`?  Models Python `pat in s`. -/
def hasSubstr : List Char → List Char → Bool
  | [], pat => pat.isEmpty
  | c :: rest, pat => startsWithChars (c :: rest) pat || hasSubstr rest pat

/-- Does a column name qualify as the company-name column?  Src line 70:
`"name" in col.lower() or "company" in col.lower()` (column names are
ASCII, so per-character lowering models `str.lower`). -/
def isCompanyCol (col : String) : Bool :=
  hasSubstr (col.data.map Char.toLower) "name".data
    || hasSubstr (col.data.map Char.toLower) "company".data

/-- The column-detection loop of src lines 68-72: first column, in declared
order, whose lowercased name contains `"name"` or `"company"`. -/
def company_col (cols : List String) : Option String :=
  cols.find? isCompanyCol

/-- Src lines 68-75: the detection loop followed by `st.error`/`st.stop`
when it found nothing — a `SchemaError` that halts processing. -/
def resolveCompanyCol (cols : List String) : Except SchemaError String :=
  match company_col cols with
  | some c => Except.ok c
  | none => Except.error SchemaError.schemaError

/-- `data.head(n)` (src line 89 uses `n = 10`): the first `n` records in
their existing order. -/
def preview (ds : List CompanyRecord) (n : Nat) : List CompanyRecord :=
  ds.take n

/-- `data[data["Industry"].isin(industries)]` (src line 96): keep the
records whose industry is one of the selected ones. -/
def filtered_data (ds : List CompanyRecord) (industries : List String) :
    List CompanyRecord :=
  ds.filter (fun r => industries.contains r.industry)

/-- Distinct values in order of first appearance — the key order produced
by `pd.unique` and by the counting pass of `value_counts`. -/
def firstDedup : List String → List String
  | [] => []
  | x :: xs => x :: (firstDedup xs).filter (fun y => y ≠ x)

/-- `data["Industry"].unique()` (src line 95): the distinct industries in
first-appearance order. -/
def uniqueIndustries (ds : List CompanyRecord) : List String :=
  firstDedup (ds.map (fun r => r.industry))

/-- Stable descending insertion by count: the new pair goes in front of the
first existing pair whose count is not larger.  Folding the count list from
the right with this gives a stable sort by descending count. -/
def insertDesc (p : String × Nat) : List (String × Nat) → List (String × Nat)
  | [] => [p]
  | q :: qs => if q.2 ≤ p.2 then p :: q :: qs else q :: insertDesc p qs

/-- Stable sort by descending count. -/
def sortCountDesc (l : List (String × Nat)) : List (String × Nat) :=
  l.foldr insertDesc []

/-- Model of `Series.value_counts()` on a string column: count the
occurrences of each distinct value (keys in first-appearance order), then
sort by descending count with a stable sort, so that equal counts keep
first-appearance order. -/
def value_counts (vals : List String) : List (String × Nat) :=
  sortCountDesc ((firstDedup vals).map (fun v => (v, vals.count v)))

/-- `data['Headquarters'].value_counts().head(topK)`: the spec's
`locationFrequency(dataset, topK)`. -/
def locationFrequency (ds : List CompanyRecord) (topK : Nat) :
    List (String × Nat) :=
  (value_counts (ds.map (fun r => r.headquarters))).take topK

/-- Src line 179: `top_locations = data['Headquarters'].value_counts().head(5)`. -/
def top_locations (ds : List CompanyRecord) : List (String × Nat) :=
  locationFrequency ds 5

/-- Sample raw row from the spec's normalization round-trip example. -/
def acmeRow : RawRow where
  name := "Acme"
  revenueText := "1,234,567"
  growthText := "12.5%"
  industry := "Tech"
  headquarters := "New York"

/-- The record `acmeRow` loads to (`decValue false 125 1` is `12.5`). -/
def acmeRec : CompanyRecord where
  name := "Acme"
  revenue := 1234567
  growth := decValue false 125 1
  industry := "Tech"
  headquarters := "New York"

/-- Sample raw row with malformed revenue text `"abc"`. -/
def badRowA : RawRow where
  name := "A"
  revenueText := "abc"
  growthText := "5.0%"
  industry := "T"
  headquarters := "H"

/-- Sample raw row with malformed revenue text `"1,2,3x"`. -/
def badRowB : RawRow where
  name := "B"
  revenueText := "1,2,3x"
  growthText := "1.0%"
  industry := "T"
  headquarters := "H"

/-- Sample raw row whose revenue text carries a minus sign. -/
def lossRow : RawRow where
  name := "Loss Corp"
  revenueText := "-5"
  growthText := "1.0%"
  industry := "Tech"
  headquarters := "Berlin"

/-- The record `lossRow` loads to: its revenue is negative. -/
def lossRec : CompanyRecord where
  name := "Loss Corp"
  revenue := -5
  growth := decValue false 10 1
  industry := "Tech"
  headquarters := "Berlin"

/-- Sample raw row with unsigned revenue text. -/
def plainRow : RawRow where
  name := "Acme"
  revenueText := "1,000"
  growthText := "5.0%"
  industry := "Tech"
  headquarters := "New York"

/-- The record `plainRow` loads to. -/
def plainRec : CompanyRecord where
  name := "Acme"
  revenue := 1000
  growth := decValue false 50 1
  industry := "Tech"
  headquarters := "New York"

/-- Sample loaded record headquartered in New York (spec end-to-end
example). -/
def nyRec : CompanyRecord where
  name := "Acme"
  revenue := 1000000
  growth := 5
  industry := "Tech"
  headquarters := "New York"

/-- Sample loaded record headquartered in London (spec end-to-end
example). -/
def londonRec : CompanyRecord where
  name := "Globex"
  revenue := 500000
  growth := -5/2
  industry := "Retail"
  headquarters := "London"

/-- The row/record relation realized by a successful `load_data`: text
columns are copied, numeric columns are the normalized values. -/
def loadRel (r : RawRow) (rec : CompanyRecord) : Prop :=
  rec.name = r.name
    ∧ normalizeRevenue r.revenueText = some rec.revenue
    ∧ normalizeGrowth r.growthText = some rec.growth
    ∧ rec.industry = r.industry
    ∧ rec.headquarters = r.headquarters

theorem convertColumn_ok_iff {α : Type} (f : String → Option α)
    (ss : List String) (vs : List α) :
    convertColumn f ss = Except.ok vs
      ↔ List.Forall₂ (fun s v => f s = some v) ss vs := by
  induction ss generalizing vs with
  | nil =>
    simp only [convertColumn, List.forall₂_nil_left_iff]
    constructor
    · intro h
      cases h
      rfl
    · intro h
      rw [h]
  | cons s rest ih =>
    cases hf : f s with
    | none =>
      simp only [convertColumn, hf]
      constructor
      · intro h
        cases h
      · intro h
        cases h with
        | cons h1 _ => rw [hf] at h1; cases h1
    | some v =>
      cases hr : convertColumn f rest with
      | error e =>
        simp only [convertColumn, hf, hr]
        constructor
        · intro h
          cases h
        · intro h
          cases h with
          | cons h1 h2 =>
            have := (ih _).mpr h2
            rw [hr] at this
            cases this
      | ok vs2 =>
        simp only [convertColumn, hf, hr]
        constructor
        · intro h
          cases h
          exact List.Forall₂.cons hf ((ih _).mp hr)
        · intro h
          cases h with
          | cons h1 h2 =>
            rw [hf] at h1
            cases h1
            have := (ih _).mpr h2
            rw [hr] at this
            cases this
            rfl

theorem convertColumn_error_of_mem {α : Type} (f : String → Option α)
    {ss : List String} {s : String} (hmem : s ∈ ss) (hf : f s = none) :
    convertColumn f ss = Except.error FormatError.formatError := by
  induction ss with
  | nil => cases hmem
  | cons a rest ih =>
    rcases List.mem_cons.mp hmem with rfl | hmem2
    · simp only [convertColumn, hf]
    · cases hfa : f a with
      | none => simp only [convertColumn, hfa]
      | some v => simp only [convertColumn, hfa, ih hmem2]

theorem buildRecords_forall₂ :
    ∀ {rows : List RawRow} {revs : List Int} {gros : List ℚ},
      List.Forall₂ (fun r v => normalizeRevenue r.revenueText = some v) rows revs →
      List.Forall₂ (fun r g => normalizeGrowth r.growthText = some g) rows gros →
      List.Forall₂ loadRel rows (buildRecords rows revs gros)
  | _, _, _, List.Forall₂.nil, List.Forall₂.nil => List.Forall₂.nil
  | _, _, _, List.Forall₂.cons h1 t1, List.Forall₂.cons h2 t2 =>
    List.Forall₂.cons ⟨rfl, h1, h2, rfl, rfl⟩ (buildRecords_forall₂ t1 t2)

theorem load_data_ok_forall₂ {rows : List RawRow} {ds : List CompanyRecord}
    (h : load_data rows = Except.ok ds) : List.Forall₂ loadRel rows ds := by
  unfold load_data at h
  cases hrev : convertColumn normalizeRevenue (rows.map (fun r => r.revenueText)) with
  | error e => rw [hrev] at h; cases h
  | ok revs =>
    rw [hrev] at h
    cases hgro : convertColumn normalizeGrowth (rows.map (fun r => r.growthText)) with
    | error e => rw [hgro] at h; cases h
    | ok gros =>
      rw [hgro] at h
      cases h
      have h1 := (convertColumn_ok_iff _ _ _).mp hrev
      have h2 := (convertColumn_ok_iff _ _ _).mp hgro
      rw [List.forall₂_map_left_iff] at h1 h2
      exact buildRecords_forall₂ h1 h2

theorem forall₂_mem_right {α β : Type} {R : α → β → Prop} :
    ∀ {l₁ : List α} {l₂ : List β}, List.Forall₂ R l₁ l₂ →
      ∀ b ∈ l₂, ∃ a ∈ l₁, R a b
  | _, _, List.Forall₂.nil, b, hb => absurd hb (List.not_mem_nil b)
  | _, _, List.Forall₂.cons h1 t1, b, hb => by
    rcases List.mem_cons.mp hb with rfl | hb2
    · exact ⟨_, List.mem_cons_self _ _, h1⟩
    · obtain ⟨a, ha, hr⟩ := forall₂_mem_right t1 b hb2
      exact ⟨a, List.mem_cons_of_mem _ ha, hr⟩

theorem parseInt_nonneg {s : String} {n : Int}
    (hs : ('-' : Char) ∉ s.data) (h : parseInt s = some n) : 0 ≤ n := by
  unfold parseInt at h
  split at h
  · next rest heq => exact absurd (heq ▸ List.mem_cons_self '-' rest) hs
  · next rest heq =>
    obtain ⟨m, hm, hn⟩ := Option.map_eq_some'.mp h
    subst hn
    exact Int.ofNat_nonneg m
  · next cs h1 h2 =>
    obtain ⟨m, hm, hn⟩ := Option.map_eq_some'.mp h
    subst hn
    exact Int.ofNat_nonneg m

theorem stripChar_not_mem {c d : Char} {s : String} (h : d ∉ s.data) :
    d ∉ (stripChar c s).data :=
  fun hm => h (List.mem_of_mem_filter hm)

theorem firstDedup_mem (l : List String) (a : String) :
    a ∈ firstDedup l ↔ a ∈ l := by
  induction l with
  | nil => simp [firstDedup]
  | cons x xs ih =>
    simp only [firstDedup, List.mem_cons, List.mem_filter]
    by_cases hax : a = x
    · subst hax
      simp
    · simp [hax, ih]

/-- Claim C1: a successful `load` yields, rowwise, the revenue text with
commas removed and parsed as an integer, and the growth text with `'%'`
removed and parsed as a floating-point number. -/
theorem claim1_load_normalizes (rows : List RawRow) (ds : List CompanyRecord)
    (h : load_data rows = Except.ok ds) :
    ds.length = rows.length ∧
    ∀ i (hr : i < rows.length) (hd : i < ds.length),
      some ((ds.get ⟨i, hd⟩).revenue)
          = parseInt (stripChar ',' ((rows.get ⟨i, hr⟩).revenueText))
      ∧ some ((ds.get ⟨i, hd⟩).growth)
          = parseFloat (stripChar '%' ((rows.get ⟨i, hr⟩).growthText)) := by
  have hf := load_data_ok_forall₂ h
  refine ⟨hf.length_eq.symm, ?_⟩
  intro i hr hd
  have hg := hf.get hr hd
  exact ⟨hg.2.1.symm, hg.2.2.1.symm⟩

/-- Witness for C1: the input row with revenue text `"1,234,567"` and
growth text `"12.5%"` loads to the integer `1234567` and the rational
`12.5`. -/
theorem claim1_witness :
    load_data [acmeRow] = Except.ok [acmeRec]
    ∧ some ((1234567 : Int)) = parseInt (stripChar ',' "1,234,567")
    ∧ some ((12.5 : ℚ)) = parseFloat (stripChar '%' "12.5%")
    ∧ acmeRec.growth = (12.5 : ℚ) := by
  have hload : load_data [acmeRow] = Except.ok [acmeRec] := by rfl
  have hval : acmeRec.growth = (12.5 : ℚ) := by norm_num [acmeRec, decValue]
  have h := (claim1_load_normalizes _ _ hload).2 0 (by decide) (by decide)
  exact ⟨hload, h.1, hval ▸ h.2, hval⟩

/-- Claim C2: a revenue text that fails integer normalization makes the
whole load fail with a `FormatError`: no partial Dataset is produced and
the cache is not populated for that source. -/
theorem claim2_bad_revenue_fails (rows : List RawRow)
    (h : ∃ r ∈ rows, normalizeRevenue r.revenueText = none) :
    load_data rows = Except.error FormatError.formatError
    ∧ ∀ (cache : List (String × List CompanyRecord)) (key : String),
        cacheLookup cache key = none →
        cached_load cache { key := key, rows := rows }
          = (Except.error FormatError.formatError, cache) := by
  obtain ⟨r, hmem, hnone⟩ := h
  have herr : convertColumn normalizeRevenue (rows.map (fun r => r.revenueText))
      = Except.error FormatError.formatError :=
    convertColumn_error_of_mem _ (List.mem_map_of_mem _ hmem) hnone
  have hload : load_data rows = Except.error FormatError.formatError := by
    unfold load_data
    rw [herr]
  refine ⟨hload, ?_⟩
  intro cache key hlk
  unfold cached_load
  simp only [hlk, hload]

/-- Witness for C2: revenue text `"abc"` (and `"1,2,3x"`) fails and leaves
an empty cache untouched. -/
theorem claim2_witness :
    load_data [badRowA, badRowB] = Except.error FormatError.formatError
    ∧ cached_load [] ⟨"Largest_Companies.csv", [badRowA, badRowB]⟩
        = (Except.error FormatError.formatError, []) := by
  have h := claim2_bad_revenue_fails [badRowA, badRowB]
    ⟨badRowA, List.mem_cons_self _ _, by decide⟩
  exact ⟨h.1, h.2 [] "Largest_Companies.csv" rfl⟩

/-- Claim C5 is false on the code: `load_data` parses a signed integer,
so a source row with revenue text `"-5"` loads successfully into a
Dataset containing a negative revenue. -/
theorem claim5_counterexample :
    ¬ (∀ (rows : List RawRow) (ds : List CompanyRecord),
        load_data rows = Except.ok ds → ∀ rec ∈ ds, 0 ≤ rec.revenue) := by
  intro hcl
  have h := hcl [lossRow] [lossRec] (by rfl) lossRec (List.mem_cons_self _ _)
  exact absurd h (by decide)

/-- Claim C5 (amended): a successful load yields only non-negative
revenues provided no revenue text contains a minus sign — the program
itself never checks the sign. -/
theorem claim5_amended (rows : List RawRow) (ds : List CompanyRecord)
    (hn : ∀ r ∈ rows, ('-' : Char) ∉ r.revenueText.data)
    (h : load_data rows = Except.ok ds) :
    ∀ rec ∈ ds, 0 ≤ rec.revenue := by
  intro rec hrec
  obtain ⟨r, hr, hrel⟩ := forall₂_mem_right (load_data_ok_forall₂ h) rec hrec
  exact parseInt_nonneg (stripChar_not_mem (hn r hr)) hrel.2.1

/-- Witness for the amended C5 at a one-row source with unsigned revenue
text. -/
theorem claim5_amended_witness : 0 ≤ plainRec.revenue :=
  claim5_amended [plainRow] [plainRec] (by decide) (by rfl) _
    (List.mem_cons_self _ _)

/-- Claim C6: filtering a non-empty Dataset by the empty industry
selection yields the empty result — there is no implicit show-all
fallback. -/
theorem claim6_empty_filter (ds : List CompanyRecord) (_h : ds ≠ []) :
    filtered_data ds [] = [] := by
  unfold filtered_data
  simp

/-- Witness for C6 on a one-record Dataset. -/
theorem claim6_witness : filtered_data [nyRec] [] = [] :=
  claim6_empty_filter _ (List.cons_ne_nil _ _)

/-- Claim C7: filtering by the full set of distinct industries present in
the Dataset keeps every record. -/
theorem claim7_full_filter (ds : List CompanyRecord) :
    (filtered_data ds (uniqueIndustries ds)).length = ds.length := by
  unfold filtered_data
  have hall : ds.filter (fun r => (uniqueIndustries ds).contains r.industry) = ds := by
    rw [List.filter_eq_self]
    intro r hr
    have : r.industry ∈ uniqueIndustries ds :=
      (firstDedup_mem _ _).mpr (List.mem_map_of_mem _ hr)
    simpa using this
  rw [hall]

theorem insertDesc_perm (p : String × Nat) (l : List (String × Nat)) :
    List.Perm (insertDesc p l) (p :: l) := by
  induction l with
  | nil => exact List.Perm.refl _
  | cons q qs ih =>
    unfold insertDesc
    by_cases h : q.2 ≤ p.2
    · rw [if_pos h]
    · rw [if_neg h]
      exact List.Perm.trans (List.Perm.cons q ih) (List.Perm.swap p q qs)

theorem sortCountDesc_perm (l : List (String × Nat)) :
    List.Perm (sortCountDesc l) l := by
  induction l with
  | nil => exact List.Perm.refl _
  | cons p ps ih =>
    exact List.Perm.trans (insertDesc_perm p (sortCountDesc ps)) (List.Perm.cons p ih)

theorem insertDesc_pairwise {Q : String × Nat → String × Nat → Prop}
    {p : String × Nat} {l : List (String × Nat)}
    (hl : l.Pairwise (fun a b => b.2 < a.2 ∨ (a.2 = b.2 ∧ Q a b)))
    (hp : ∀ q ∈ l, Q p q) :
    (insertDesc p l).Pairwise (fun a b => b.2 < a.2 ∨ (a.2 = b.2 ∧ Q a b)) := by
  induction l with
  | nil => simp [insertDesc]
  | cons q qs ih =>
    rw [List.pairwise_cons] at hl
    obtain ⟨hq, hqs⟩ := hl
    unfold insertDesc
    by_cases hcmp : q.2 ≤ p.2
    · rw [if_pos hcmp]
      refine List.Pairwise.cons ?_ (List.Pairwise.cons hq hqs)
      intro b hb
      rcases List.mem_cons.mp hb with rfl | hbqs
      · rcases lt_or_eq_of_le hcmp with hlt | heq
        · exact Or.inl hlt
        · exact Or.inr ⟨heq.symm, hp _ (List.mem_cons_self _ _)⟩
      · rcases hq b hbqs with hlt | ⟨heq, _⟩
        · exact Or.inl (lt_of_lt_of_le hlt hcmp)
        · have hble : b.2 ≤ p.2 := heq ▸ hcmp
          rcases lt_or_eq_of_le hble with hlt | heq2
          · exact Or.inl hlt
          · exact Or.inr ⟨heq2.symm, hp _ (List.mem_cons_of_mem _ hbqs)⟩
    · rw [if_neg hcmp]
      have hplt : p.2 < q.2 := Nat.lt_of_not_le hcmp
      refine List.Pairwise.cons ?_ (ih hqs (fun x hx => hp x (List.mem_cons_of_mem _ hx)))
      intro b hb
      have hmem : b = p ∨ b ∈ qs :=
        List.mem_cons.mp ((insertDesc_perm p qs).mem_iff.mp hb)
      rcases hmem with rfl | hbqs
      · exact Or.inl hplt
      · exact hq b hbqs

theorem sortCountDesc_pairwise {Q : String × Nat → String × Nat → Prop}
    {l : List (String × Nat)} (hl : l.Pairwise Q) :
    (sortCountDesc l).Pairwise (fun a b => b.2 < a.2 ∨ (a.2 = b.2 ∧ Q a b)) := by
  induction l with
  | nil => simp [sortCountDesc]
  | cons p ps ih =>
    rw [List.pairwise_cons] at hl
    obtain ⟨hp, hps⟩ := hl
    show (insertDesc p (sortCountDesc ps)).Pairwise
      (fun a b => b.2 < a.2 ∨ (a.2 = b.2 ∧ Q a b))
    refine insertDesc_pairwise (ih hps) ?_
    intro q hq
    exact hp q ((sortCountDesc_perm ps).mem_iff.mp hq)

theorem firstDedup_nodup (l : List String) : (firstDedup l).Nodup := by
  induction l with
  | nil => simp [firstDedup]
  | cons x xs ih =>
    refine List.Pairwise.cons ?_ (List.Nodup.filter _ ih)
    intro b hb
    have hbx : b ≠ x := by simpa using (List.mem_filter.mp hb).2
    exact hbx.symm

theorem firstDedup_pairwise_index (l : List String) :
    (firstDedup l).Pairwise (fun a b => l.indexOf a < l.indexOf b) := by
  induction l with
  | nil => simp [firstDedup]
  | cons x xs ih =>
    refine List.Pairwise.cons ?_ ?_
    · intro b hb
      have hbx : b ≠ x := by simpa using (List.mem_filter.mp hb).2
      rw [List.indexOf_cons_self, List.indexOf_cons_ne _ hbx.symm]
      exact Nat.succ_pos _
    · have hpw : ((firstDedup xs).filter (fun y => y ≠ x)).Pairwise
          (fun a b => xs.indexOf a < xs.indexOf b) :=
        List.Pairwise.sublist (List.filter_sublist _) ih
      refine List.Pairwise.imp_of_mem ?_ hpw
      intro a b ha hb hlt
      have hax : a ≠ x := by simpa using (List.mem_filter.mp ha).2
      have hbx : b ≠ x := by simpa using (List.mem_filter.mp hb).2
      rw [List.indexOf_cons_ne _ hax.symm, List.indexOf_cons_ne _ hbx.symm]
      exact Nat.succ_lt_succ hlt

theorem filter_ne_of_not_mem (x : String) (D : List String) (hx : x ∉ D) :
    D.filter (fun y => y ≠ x) = D := by
  rw [List.filter_eq_self]
  intro b hb
  have hbx : b ≠ x := fun hbx => hx (hbx ▸ hb)
  simpa using hbx

theorem sum_remove (x : String) (D : List String) (f : String → Nat)
    (hx : x ∈ D) (hD : D.Nodup) :
    (D.map f).sum = f x + ((D.filter (fun y => y ≠ x)).map f).sum := by
  induction D with
  | nil => cases hx
  | cons d D2 ih =>
    rw [List.nodup_cons] at hD
    obtain ⟨hd, hD2⟩ := hD
    rcases List.mem_cons.mp hx with rfl | hx2
    · have hdrop : (x :: D2).filter (fun y => y ≠ x) = D2.filter (fun y => y ≠ x) := by
        simp
      rw [hdrop, filter_ne_of_not_mem x D2 hd]
      simp
    · have hdx : d ≠ x := fun h => hd (h ▸ hx2)
      have hkeep : (d :: D2).filter (fun y => y ≠ x) = d :: D2.filter (fun y => y ≠ x) := by
        simp [hdx]
      rw [hkeep]
      simp only [List.map_cons, List.sum_cons]
      rw [ih hx2 hD2]
      omega

theorem sum_counts (l : List String) :
    ((firstDedup l).map (fun v => l.count v)).sum = l.length := by
  induction l with
  | nil => simp [firstDedup]
  | cons x xs ih =>
    simp only [firstDedup, List.map_cons, List.sum_cons]
    have hmapeq : ((firstDedup xs).filter (fun y => y ≠ x)).map (fun v => (x :: xs).count v)
        = ((firstDedup xs).filter (fun y => y ≠ x)).map (fun v => xs.count v) := by
      apply List.map_congr_left
      intro v hv
      have hvx : v ≠ x := by simpa using (List.mem_filter.mp hv).2
      rw [List.count_cons_of_ne hvx]
    rw [hmapeq, List.count_cons_self]
    by_cases hx : x ∈ xs
    · have hxD : x ∈ firstDedup xs := (firstDedup_mem _ _).mpr hx
      have hA := sum_remove x (firstDedup xs) (fun v => xs.count v) hxD (firstDedup_nodup xs)
      rw [ih] at hA
      simp only at hA
      simp only [List.length_cons]
      omega
    · have hx0 : xs.count x = 0 := List.count_eq_zero.mpr hx
      have hxD : x ∉ firstDedup xs := fun hc => hx ((firstDedup_mem _ _).mp hc)
      rw [filter_ne_of_not_mem x (firstDedup xs) hxD, ih, hx0]
      simp only [List.length_cons]
      omega

/-- Claim C3: `locationFrequency` orders the (headquarters, count) pairs by
descending count, and equal counts keep the first-appearance order of the
location in the Dataset; on the two-row New York / London Dataset it
returns the pairs in Dataset order. -/
theorem claim3_locationFrequency_order :
    (∀ (ds : List CompanyRecord) (topK : Nat),
      (locationFrequency ds topK).Pairwise (fun a b =>
        b.2 < a.2 ∨ (a.2 = b.2 ∧
          (ds.map (fun r => r.headquarters)).indexOf a.1
            < (ds.map (fun r => r.headquarters)).indexOf b.1)))
    ∧ locationFrequency [nyRec, londonRec] 5 = [("New York", 1), ("London", 1)] := by
  constructor
  · intro ds topK
    have hbase : ((firstDedup (ds.map (fun r => r.headquarters))).map
          (fun v => (v, (ds.map (fun r => r.headquarters)).count v))).Pairwise
        (fun a b => (ds.map (fun r => r.headquarters)).indexOf a.1
          < (ds.map (fun r => r.headquarters)).indexOf b.1) := by
      rw [List.pairwise_map]
      exact firstDedup_pairwise_index (ds.map (fun r => r.headquarters))
    have hsorted := sortCountDesc_pairwise hbase
    exact List.Pairwise.sublist (List.take_sublist _ _) hsorted
  · decide

/-- Claim C8: `locationFrequency` returns at most `topK` pairs, and when
`topK` covers every distinct headquarters value the counts sum to the
number of records. -/
theorem claim8_locationFrequency_counts (ds : List CompanyRecord) (topK : Nat) :
    (locationFrequency ds topK).length ≤ topK
    ∧ ((firstDedup (ds.map (fun r => r.headquarters))).length ≤ topK →
        ((locationFrequency ds topK).map (fun p => p.2)).sum = ds.length) := by
  constructor
  · exact List.length_take_le _ _
  · intro hk
    have hlen : (value_counts (ds.map (fun r => r.headquarters))).length
        = (firstDedup (ds.map (fun r => r.headquarters))).length := by
      unfold value_counts
      rw [(sortCountDesc_perm _).length_eq, List.length_map]
    have htake : locationFrequency ds topK
        = value_counts (ds.map (fun r => r.headquarters)) := by
      unfold locationFrequency
      apply List.take_of_length_le
      rw [hlen]
      exact hk
    rw [htake]
    unfold value_counts
    have hperm := ((sortCountDesc_perm
        ((firstDedup (ds.map (fun r => r.headquarters))).map
          (fun v => (ds.map (fun r => r.headquarters)).count v |> Prod.mk v))).map
        (fun p : String × Nat => p.2))
    rw [hperm.sum_eq, List.map_map]
    have hsum := sum_counts (ds.map (fun r => r.headquarters))
    simpa [Function.comp] using hsum

/-- Witness for C8 on the two-record Dataset: 2 pairs, counts summing to
2 records, within the bound 5. -/
theorem claim8_witness :
    (locationFrequency [nyRec, londonRec] 5).length ≤ 5
    ∧ ((locationFrequency [nyRec, londonRec] 5).map (fun p => p.2)).sum = 2 := by
  have h := claim8_locationFrequency_counts [nyRec, londonRec] 5
  exact ⟨h.1, h.2 (by decide)⟩

/-- Claim C4: company-name column resolution takes the first column, in
declared order, whose lowercased name contains `"name"` or `"company"`,
and signals a `SchemaError` exactly when no column qualifies. -/
theorem claim4_company_col (cols : List String) :
    (∀ c, resolveCompanyCol cols = Except.ok c →
        ∃ pre post, cols = pre ++ c :: post ∧ isCompanyCol c = true
          ∧ ∀ x ∈ pre, isCompanyCol x = false)
    ∧ (resolveCompanyCol cols = Except.error SchemaError.schemaError
        ↔ ∀ c ∈ cols, isCompanyCol c = false) := by
  constructor
  · intro c hc
    have hfind : company_col cols = some c := by
      unfold resolveCompanyCol at hc
      cases hcc : company_col cols with
      | none => rw [hcc] at hc; cases hc
      | some c2 => rw [hcc] at hc; cases hc; rfl
    clear hc
    induction cols with
    | nil => cases hfind
    | cons a rest ih =>
      cases ha : isCompanyCol a with
      | true =>
        rw [company_col, List.find?_cons_of_pos _ ha] at hfind
        cases hfind
        exact ⟨[], rest, rfl, ha, fun x hx => absurd hx (List.not_mem_nil x)⟩
      | false =>
        rw [company_col, List.find?_cons_of_neg _ (by simp [ha])] at hfind
        obtain ⟨pre, post, heq, hcy, hpre⟩ := ih hfind
        refine ⟨a :: pre, post, by rw [List.cons_append, heq], hcy, ?_⟩
        intro x hx
        rcases List.mem_cons.mp hx with rfl | hx2
        · exact ha
        · exact hpre x hx2
  · constructor
    · intro herr c hc
      have hnone : company_col cols = none := by
        unfold resolveCompanyCol at herr
        cases hcc : company_col cols with
        | none => rfl
        | some c2 => rw [hcc] at herr; cases herr
      have := List.find?_eq_none.mp hnone
      simpa using this c hc
    · intro hall
      have hnone : company_col cols = none := by
        cases hcc : company_col cols with
        | none => rfl
        | some c2 =>
          have hp := List.find?_some hcc
          rw [hall c2 (List.mem_of_find?_eq_some hcc)] at hp
          cases hp
      unfold resolveCompanyCol
      rw [hnone]

/-- Witness for C4: `"Company Name"` is picked over later candidates, a
leading non-matching column is skipped, and a schema without any
name/company column resolves to the error. -/
theorem claim4_witness :
    (∃ pre post, (["Rank", "Company Name", "Industry"] : List String)
        = pre ++ "Company Name" :: post ∧ isCompanyCol "Company Name" = true
        ∧ ∀ x ∈ pre, isCompanyCol x = false)
    ∧ resolveCompanyCol ["Rank", "Revenue (USD millions)", "Industry"]
        = Except.error SchemaError.schemaError :=
  ⟨(claim4_company_col ["Rank", "Company Name", "Industry"]).1
      "Company Name" (by decide),
    (claim4_company_col ["Rank", "Revenue (USD millions)", "Industry"]).2.mpr
      (by decide)⟩

/-- Claim C10: normalization strips the separator characters wherever they
occur: no comma survives revenue stripping and no percent sign survives
growth stripping, `"1,2,3"` parses to `123`, a growth text with a leading
and a trailing `'%'` still parses, and a growth text with no `'%'` at all
parses too. -/
theorem claim10_strip_everywhere :
    (∀ s : String, ((stripChar ',' s).data.contains ',') = false)
    ∧ (∀ s : String, ((stripChar '%' s).data.contains '%') = false)
    ∧ normalizeRevenue "1,2,3" = some 123
    ∧ normalizeGrowth "%12.5%" = some (12.5 : ℚ)
    ∧ normalizeGrowth "12.5" = some (12.5 : ℚ)
    ∧ normalizeGrowth "-2.5" = some (-2.5 : ℚ) := by
  have hpos : decValue false 125 1 = (12.5 : ℚ) := by norm_num [decValue]
  have hneg : decValue true 25 1 = (-2.5 : ℚ) := by norm_num [decValue]
  refine ⟨fun s => ?_, fun s => ?_, by decide, ?_, ?_, ?_⟩
  · cases hc : (stripChar ',' s).data.contains ',' with
    | false => rfl
    | true =>
      have hmem : ',' ∈ (stripChar ',' s).data := by
        simpa using hc
      have := List.of_mem_filter hmem
      simp at this
  · cases hc : (stripChar '%' s).data.contains '%' with
    | false => rfl
    | true =>
      have hmem : '%' ∈ (stripChar '%' s).data := by
        simpa using hc
      have := List.of_mem_filter hmem
      simp at this
  · have h : normalizeGrowth "%12.5%" = some (decValue false 125 1) := rfl
    rw [h, hpos]
  · have h : normalizeGrowth "12.5" = some (decValue false 125 1) := rfl
    rw [h, hpos]
  · have h : normalizeGrowth "-2.5" = some (decValue true 25 1) := rfl
    rw [h, hneg]

/-- Claim C9: `preview ds 10` is the first `min 10 (length ds)` records of
the Dataset, in their original order. -/
theorem claim9_preview (ds : List CompanyRecord) :
    (preview ds 10).length = min 10 ds.length
    ∧ preview ds 10 ++ ds.drop 10 = ds :=
  ⟨List.length_take 10 ds, List.take_append_drop 10 ds⟩

end Top100
